import Mathlib

/-!
# Verification of the lilnouns-agent conversation pipeline

A shallow embedding of the core of the `lilnouns-agent` worker:

* `src/utils/text.ts` — message chunking (`splitMessage` and its helpers),
  embedded over `List Char` with explicit fuel for each `while`/`for` loop
  (every loop is given more fuel than it can consume; fuel adequacy is
  proved where a claim depends on termination);
* `src/handlers/one-to-one-conversation-handler.ts` and
  `src/handlers/group-conversation-handler.ts` — the conversation pipeline,
  embedded as pure functions over an environment record that carries the
  results of the external collaborators (message client, inference client,
  watermark store, send operation) as oracles;
* `src/lib/config.ts` (second document: `lib/ai.ts`) — `generateContextText`
  and `handleAiToolCalls` with its per-tool dispatch and per-call catch;
* `src/services/farcaster-stream.ts` — the reconnect backoff arithmetic and
  the `handleRefresh` event handler.

JavaScript strings are `List Char`; machine numbers that only ever hold
exact small integers (fids, timestamps, backoff millis) are `Nat`/`Int`.
-/

namespace LilnounsAgent

/-! ## Characters: the ECMAScript whitespace class

`/\s/` in JavaScript matches the WhiteSpace and LineTerminator productions;
`String.prototype.trim` strips the same set. -/

/-- The ECMAScript whitespace class: the characters matched by `/\s/` and
stripped by `trim()`. -/
def isJsWs (c : Char) : Bool :=
  c = ' ' || c = '\t' || c = '\n' || c = '\r' ||
  c = Char.ofNat 0x0b || c = Char.ofNat 0x0c ||
  c = Char.ofNat 0xa0 || c = Char.ofNat 0xfeff ||
  c = Char.ofNat 0x1680 ||
  (0x2000 ≤ c.toNat && c.toNat ≤ 0x200a) ||
  c = Char.ofNat 0x2028 || c = Char.ofNat 0x2029 ||
  c = Char.ofNat 0x202f || c = Char.ofNat 0x205f || c = Char.ofNat 0x3000

/-- JavaScript `pattern.test(text[i])`: an out-of-range read yields
`undefined`, which none of the single-character classes used in `text.ts`
matches. -/
def testAt (p : Char → Bool) (text : List Char) (i : Nat) : Bool :=
  match text[i]? with
  | some c => p c
  | none => false

/-- `message.replace(/\r\n/g, '\n')`: global left-to-right, non-overlapping
replacement of CRLF by LF; a carriage return not followed by a line feed is
kept as is. -/
def normalizeNewlines : List Char → List Char
  | [] => []
  | c :: rest =>
    if c = '\r' then
      match rest with
      | '\n' :: rest' => '\n' :: normalizeNewlines rest'
      | [] => [c]
      | d :: rest' => c :: normalizeNewlines (d :: rest')
    else c :: normalizeNewlines rest

/-- JavaScript `s.trim()`: strip the whitespace class from both ends. -/
def trimChars (l : List Char) : List Char :=
  ((l.dropWhile isJsWs).reverse.dropWhile isJsWs).reverse

/-- JavaScript `s.slice(a, b)` for `a ≤ b` within bounds. -/
def sliceChars (text : List Char) (a b : Nat) : List Char :=
  (text.drop a).take (b - a)

/-! ## `text.ts` loops, with fuel

Each `while`/`for` loop of `text.ts` becomes a structurally recursive
function on an explicit fuel argument, keeping the loop condition of the
source verbatim; the un-suffixed wrapper supplies fuel strictly larger than
the number of iterations the loop can perform, so the wrapper computes the
loop exactly (adequacy lemmas below). -/

/-- Loop of `skipLeadingWhitespace(text, index)`:
`while (current < text.length && /\s/.test(text[current])) current += 1`. -/
def skipLeadingWhitespaceF : Nat → List Char → Nat → Nat
  | 0, _, index => index
  | fuel + 1, text, index =>
    if index < text.length && testAt isJsWs text index then
      skipLeadingWhitespaceF fuel text (index + 1)
    else index

/-- `skipLeadingWhitespace` of `text.ts`: the loop advances `index` at every
iteration and stops at `text.length`, so `text.length + 1` fuel is ample. -/
def skipLeadingWhitespace (text : List Char) (index : Nat) : Nat :=
  skipLeadingWhitespaceF (text.length + 1) text index

/-- Loop of `trimTrailingWhitespace(text, startIndex, index)`:
`while (cursor > startIndex && /\s/.test(text[cursor] ?? '')) cursor -= 1;
return cursor + 1`. -/
def trimTrailingWhitespaceF : Nat → List Char → Nat → Nat → Nat
  | 0, _, _, cursor => cursor + 1
  | fuel + 1, text, startIndex, cursor =>
    if startIndex < cursor && testAt isJsWs text cursor then
      trimTrailingWhitespaceF fuel text startIndex (cursor - 1)
    else cursor + 1

/-- `trimTrailingWhitespace` of `text.ts`: the cursor only decreases, so
`cursor + 1` fuel is ample. -/
def trimTrailingWhitespace (text : List Char) (startIndex cursor : Nat) : Nat :=
  trimTrailingWhitespaceF (cursor + 1) text startIndex cursor

/-- Loop of `seekBoundary(text, startIndex, endIndex, pattern)`:
`for (index = endIndex; index > startIndex; index -= 1)` with
`char = text[index - 1]`, `nextChar = text[index] ?? ''`:
a pattern character that is not whitespace and is followed by a non-empty,
non-whitespace character is skipped (URL guard); a whitespace pattern
character delegates to `trimTrailingWhitespace`; otherwise the index right
after the pattern character is returned. -/
def seekBoundaryF (p : Char → Bool) : Nat → List Char → Nat → Nat → Option Nat
  | 0, _, _, _ => none
  | fuel + 1, text, startIndex, index =>
    if startIndex < index then
      if testAt p text (index - 1) then
        if !testAt isJsWs text (index - 1) && testAt (fun c => !isJsWs c) text index then
          seekBoundaryF p fuel text startIndex (index - 1)
        else if testAt isJsWs text (index - 1) then
          some (trimTrailingWhitespace text startIndex (index - 1))
        else some index
      else seekBoundaryF p fuel text startIndex (index - 1)
    else none

/-- `seekBoundary` of `text.ts` with ample fuel. -/
def seekBoundary (text : List Char) (startIndex endIndex : Nat) (p : Char → Bool) :
    Option Nat :=
  seekBoundaryF p (endIndex + 1) text startIndex endIndex

/-- Loop of `seekWhitespace(text, startIndex, endIndex)`. -/
def seekWhitespaceF : Nat → List Char → Nat → Nat → Option Nat
  | 0, _, _, _ => none
  | fuel + 1, text, startIndex, index =>
    if startIndex < index then
      if testAt isJsWs text (index - 1) then
        some (trimTrailingWhitespace text startIndex (index - 1))
      else seekWhitespaceF fuel text startIndex (index - 1)
    else none

/-- `seekWhitespace` of `text.ts` with ample fuel. -/
def seekWhitespace (text : List Char) (startIndex endIndex : Nat) : Option Nat :=
  seekWhitespaceF (endIndex + 1) text startIndex endIndex

/-- `/[\n\r]/` of the first seeker. -/
def isNewlineChar (c : Char) : Bool := c = '\n' || c = '\r'

/-- `/[.!?]/` of the second seeker. -/
def isSentencePunct (c : Char) : Bool := c = '.' || c = '!' || c = '?'

/-- `/[;:]/` of the third seeker. -/
def isClausePunct (c : Char) : Bool := c = ';' || c = ':'

/-- `/,/` of the fourth seeker. -/
def isCommaChar (c : Char) : Bool := c = ','

/-- `findSplitPosition(text, startIndex, maxLength)`: try the five seekers in
order on the window `[startIndex, upperBound]`, falling back to the hard cut
at `upperBound`. -/
def findSplitPosition (text : List Char) (startIndex maxLength : Nat) : Nat :=
  let upperBound := min (startIndex + maxLength) text.length
  if upperBound = text.length then text.length
  else
    match seekBoundary text startIndex upperBound isNewlineChar with
    | some r => r
    | none =>
      match seekBoundary text startIndex upperBound isSentencePunct with
      | some r => r
      | none =>
        match seekBoundary text startIndex upperBound isClausePunct with
        | some r => r
        | none =>
          match seekBoundary text startIndex upperBound isCommaChar with
          | some r => r
          | none =>
            match seekWhitespace text startIndex upperBound with
            | some r => r
            | none => upperBound

/-- Chunking loop of `splitMessage`:
`while (startIndex < normalized.length)` slice off the next chunk at the
natural split position, keep it when non-empty after trimming, and continue
from the next non-whitespace position. -/
def splitLoopF (text : List Char) (maxLength : Nat) : Nat → Nat → List (List Char)
  | 0, _ => []
  | fuel + 1, startIndex =>
    if startIndex < text.length then
      let naturalEnd := findSplitPosition text startIndex maxLength
      let chunk := trimChars (sliceChars text startIndex naturalEnd)
      let rest := splitLoopF text maxLength fuel (skipLeadingWhitespace text naturalEnd)
      if chunk.length > 0 then chunk :: rest else rest
    else []

/-- `splitMessage(message, maxLength)` of `text.ts`. For `1 ≤ maxLength` the
loop advances its scan index every iteration (proved below), so
`text.length + 1` fuel is ample; for `maxLength = 0` the JavaScript loop
does not terminate and the fuel runs out instead. The source's only call
sites use the default `maxLength = 300`. -/
def splitMessage (message : List Char) (maxLength : Nat) : List (List Char) :=
  let normalized := normalizeNewlines message
  if (trimChars normalized).length = 0 then []
  else splitLoopF normalized maxLength (normalized.length + 1)
    (skipLeadingWhitespace normalized 0)

example : splitMessage "ab cd".toList 2 = ["ab".toList, "cd".toList] := by decide

example :
    splitMessage "This is the first sentence. Here is the second one.".toList 30 =
      ["This is the first sentence.".toList, "Here is the second one.".toList] := by
  decide

/-! ## Lemmas on the `text.ts` loops -/

theorem skipLeadingWhitespaceF_ge (fuel : Nat) (text : List Char) (index : Nat) :
    index ≤ skipLeadingWhitespaceF fuel text index := by
  induction fuel generalizing index with
  | zero => simp [skipLeadingWhitespaceF]
  | succ fuel ih =>
    simp only [skipLeadingWhitespaceF]
    split
    · exact le_trans (Nat.le_succ index) (ih (index + 1))
    · exact le_refl index

theorem skipLeadingWhitespaceF_stable (f₁ : Nat) (text : List Char) :
    ∀ f₂ index, text.length - index < f₁ → text.length - index < f₂ →
      skipLeadingWhitespaceF f₁ text index = skipLeadingWhitespaceF f₂ text index := by
  induction f₁ with
  | zero => omega
  | succ f₁ ih =>
    intro f₂ index h₁ h₂
    match f₂, h₂ with
    | f₂ + 1, h₂ =>
      simp only [skipLeadingWhitespaceF]
      by_cases hc : (index < text.length && testAt isJsWs text index) = true
      · rw [if_pos hc, if_pos hc]
        have hlt : index < text.length := by
          simpa using (Bool.and_eq_true _ _ |>.mp hc).1
        exact ih f₂ (index + 1) (by omega) (by omega)
      · rw [if_neg hc, if_neg hc]

theorem skipLeadingWhitespaceF_stop (fuel : Nat) (text : List Char) :
    ∀ index, text.length - index < fuel →
      skipLeadingWhitespaceF fuel text index < text.length →
      testAt isJsWs text (skipLeadingWhitespaceF fuel text index) = false := by
  induction fuel with
  | zero => omega
  | succ fuel ih =>
    intro index h₁
    simp only [skipLeadingWhitespaceF]
    by_cases hc : (index < text.length && testAt isJsWs text index) = true
    · rw [if_pos hc]
      have hlt : index < text.length := by
        simpa using (Bool.and_eq_true _ _ |>.mp hc).1
      exact ih (index + 1) (by omega)
    · rw [if_neg hc]
      intro hlt
      simpa [hlt] using hc

theorem skipLeadingWhitespace_ge (text : List Char) (index : Nat) :
    index ≤ skipLeadingWhitespace text index :=
  skipLeadingWhitespaceF_ge _ text index

theorem skipLeadingWhitespace_stop (text : List Char) (index : Nat)
    (h : skipLeadingWhitespace text index < text.length) :
    testAt isJsWs text (skipLeadingWhitespace text index) = false :=
  skipLeadingWhitespaceF_stop (text.length + 1) text index (by omega) h

theorem trimTrailingWhitespaceF_le (fuel : Nat) (text : List Char) (s : Nat) :
    ∀ cursor, trimTrailingWhitespaceF fuel text s cursor ≤ cursor + 1 := by
  induction fuel with
  | zero => intro cursor; simp [trimTrailingWhitespaceF]
  | succ fuel ih =>
    intro cursor
    simp only [trimTrailingWhitespaceF]
    split
    · exact le_trans (ih (cursor - 1)) (by omega)
    · exact le_refl _

theorem trimTrailingWhitespaceF_ge (fuel : Nat) (text : List Char) (s : Nat) :
    ∀ cursor, s ≤ cursor → s + 1 ≤ trimTrailingWhitespaceF fuel text s cursor := by
  induction fuel with
  | zero => intro cursor h; simp only [trimTrailingWhitespaceF]; omega
  | succ fuel ih =>
    intro cursor h
    simp only [trimTrailingWhitespaceF]
    by_cases hc : (s < cursor && testAt isJsWs text cursor) = true
    · rw [if_pos hc]
      have hlt : s < cursor := by
        simpa using (Bool.and_eq_true _ _ |>.mp hc).1
      exact ih (cursor - 1) (by omega)
    · rw [if_neg hc]; omega

theorem trimTrailingWhitespaceF_nonws (fuel : Nat) (text : List Char) (s c : Nat)
    (h : testAt isJsWs text c = false) :
    trimTrailingWhitespaceF fuel text s c = c + 1 := by
  cases fuel with
  | zero => rfl
  | succ fuel =>
    simp only [trimTrailingWhitespaceF]
    rw [if_neg (by simp [h])]

theorem trimTrailingWhitespaceF_ws (fuel : Nat) (text : List Char) (s : Nat) :
    ∀ cursor, testAt isJsWs text cursor = true →
      testAt isJsWs text (trimTrailingWhitespaceF fuel text s cursor) = true ∨
        trimTrailingWhitespaceF fuel text s cursor = cursor + 1 := by
  induction fuel with
  | zero => intro cursor _; right; rfl
  | succ fuel ih =>
    intro cursor hws
    simp only [trimTrailingWhitespaceF]
    by_cases hc : (s < cursor && testAt isJsWs text cursor) = true
    · rw [if_pos hc]
      have hlt : s < cursor := by
        simpa using (Bool.and_eq_true _ _ |>.mp hc).1
      rcases Bool.eq_false_or_eq_true (testAt isJsWs text (cursor - 1)) with hw' | hw'
      · rcases ih (cursor - 1) hw' with h | h
        · left; exact h
        · left
          rw [h]
          have he : cursor - 1 + 1 = cursor := by omega
          rw [he]; exact hws
      · -- the character below the cursor is not whitespace: the inner call
        -- stops at once and returns the cursor itself, which is whitespace
        left
        rw [trimTrailingWhitespaceF_nonws fuel text s (cursor - 1) hw']
        have he : cursor - 1 + 1 = cursor := by omega
        rw [he]; exact hws
    · rw [if_neg hc]; right; rfl

theorem trimTrailingWhitespace_le (text : List Char) (s cursor : Nat) :
    trimTrailingWhitespace text s cursor ≤ cursor + 1 :=
  trimTrailingWhitespaceF_le _ text s cursor

theorem trimTrailingWhitespace_ge (text : List Char) (s cursor : Nat) (h : s ≤ cursor) :
    s + 1 ≤ trimTrailingWhitespace text s cursor :=
  trimTrailingWhitespaceF_ge _ text s cursor h

theorem trimTrailingWhitespace_ws (text : List Char) (s cursor : Nat)
    (h : testAt isJsWs text cursor = true) :
    testAt isJsWs text (trimTrailingWhitespace text s cursor) = true ∨
      trimTrailingWhitespace text s cursor = cursor + 1 :=
  trimTrailingWhitespaceF_ws _ text s cursor h

/-- The punctuation characters any of the four `seekBoundary` patterns can
match. -/
def punctChar (c : Char) : Bool :=
  isNewlineChar c || isSentencePunct c || isClausePunct c || isCommaChar c

/-- A split position that does not fall inside a word or a URL token: the
character at the position or just before it is whitespace, or the position
sits right after boundary punctuation at the very end of the text. -/
def naturalBoundaryAt (text : List Char) (pos : Nat) : Bool :=
  testAt isJsWs text pos || testAt isJsWs text (pos - 1) ||
  (testAt punctChar text (pos - 1) && (pos == text.length))

theorem testAt_of_imp {p q : Char → Bool} (hpq : ∀ c, p c = true → q c = true)
    (text : List Char) (i : Nat) (h : testAt p text i = true) :
    testAt q text i = true := by
  unfold testAt at h ⊢
  cases hx : text[i]? with
  | none => rw [hx] at h; exact absurd h (by simp)
  | some c => rw [hx] at h; exact hpq c h

theorem testAt_not_nonws (text : List Char) (i : Nat)
    (h : testAt (fun c => !isJsWs c) text i = false) :
    testAt isJsWs text i = true ∨ text[i]? = none := by
  unfold testAt at h ⊢
  cases hx : text[i]? with
  | none => right; rfl
  | some c =>
    left
    rw [hx] at h
    simpa using h

theorem seekBoundaryF_le (p : Char → Bool) (fuel : Nat) (text : List Char) (s : Nat) :
    ∀ index r, seekBoundaryF p fuel text s index = some r → r ≤ index := by
  induction fuel with
  | zero => intro index r h; exact absurd h (by simp [seekBoundaryF])
  | succ fuel ih =>
    intro index r h
    simp only [seekBoundaryF] at h
    by_cases hs : s < index
    · rw [if_pos hs] at h
      by_cases hp : testAt p text (index - 1) = true
      · rw [if_pos hp] at h
        by_cases hskip :
            (!testAt isJsWs text (index - 1) &&
              testAt (fun c => !isJsWs c) text index) = true
        · rw [if_pos hskip] at h
          exact le_trans (ih (index - 1) r h) (by omega)
        · rw [if_neg hskip] at h
          by_cases hws : testAt isJsWs text (index - 1) = true
          · rw [if_pos hws] at h
            injection h with h
            have hb := trimTrailingWhitespace_le text s (index - 1)
            omega
          · rw [if_neg hws] at h
            injection h with h
            omega
      · rw [if_neg hp] at h
        exact le_trans (ih (index - 1) r h) (by omega)
    · rw [if_neg hs] at h
      exact absurd h (by simp)

theorem seekBoundaryF_gt (p : Char → Bool) (fuel : Nat) (text : List Char) (s : Nat) :
    ∀ index r, seekBoundaryF p fuel text s index = some r → s < r := by
  induction fuel with
  | zero => intro index r h; exact absurd h (by simp [seekBoundaryF])
  | succ fuel ih =>
    intro index r h
    simp only [seekBoundaryF] at h
    by_cases hs : s < index
    · rw [if_pos hs] at h
      by_cases hp : testAt p text (index - 1) = true
      · rw [if_pos hp] at h
        by_cases hskip :
            (!testAt isJsWs text (index - 1) &&
              testAt (fun c => !isJsWs c) text index) = true
        · rw [if_pos hskip] at h
          exact ih (index - 1) r h
        · rw [if_neg hskip] at h
          by_cases hws : testAt isJsWs text (index - 1) = true
          · rw [if_pos hws] at h
            injection h with h
            have hb := trimTrailingWhitespace_ge text s (index - 1) (by omega)
            omega
          · rw [if_neg hws] at h
            injection h with h
            omega
      · rw [if_neg hp] at h
        exact ih (index - 1) r h
    · rw [if_neg hs] at h
      exact absurd h (by simp)

theorem seekBoundaryF_natural (p : Char → Bool)
    (hp : ∀ c, p c = true → punctChar c = true)
    (fuel : Nat) (text : List Char) (s : Nat) :
    ∀ index, index ≤ text.length →
      ∀ r, seekBoundaryF p fuel text s index = some r →
        naturalBoundaryAt text r = true := by
  induction fuel with
  | zero => intro index _ r h; exact absurd h (by simp [seekBoundaryF])
  | succ fuel ih =>
    intro index hlen r h
    simp only [seekBoundaryF] at h
    by_cases hs : s < index
    · rw [if_pos hs] at h
      by_cases hpt : testAt p text (index - 1) = true
      · rw [if_pos hpt] at h
        by_cases hskip :
            (!testAt isJsWs text (index - 1) &&
              testAt (fun c => !isJsWs c) text index) = true
        · rw [if_pos hskip] at h
          exact ih (index - 1) (by omega) r h
        · rw [if_neg hskip] at h
          by_cases hws : testAt isJsWs text (index - 1) = true
          · rw [if_pos hws] at h
            injection h with h
            rcases trimTrailingWhitespace_ws text s (index - 1) hws with hw | hw
            · rw [← h]
              simp [naturalBoundaryAt, hw]
            · have he : index - 1 + 1 = index := by omega
              rw [he] at hw
              rw [← h, hw]
              simp [naturalBoundaryAt, hws]
          · rw [if_neg hws] at h
            injection h with h
            subst h
            -- the punctuation guard failed with a non-whitespace character:
            -- the character after the boundary is whitespace or absent
            have hws' : testAt isJsWs text (index - 1) = false := by
              simpa using hws
            have hnon : testAt (fun c => !isJsWs c) text index = false := by
              have hx : ¬ testAt (fun c => !isJsWs c) text index = true := by
                intro hx
                exact hskip (by simp [hws', hx])
              simpa using hx
            rcases testAt_not_nonws text index hnon with hwsr | hnone
            · simp [naturalBoundaryAt, hwsr]
            · have hge : text.length ≤ index := List.getElem?_eq_none_iff.mp hnone
              have hr : index = text.length := by omega
              have hpr := testAt_of_imp hp text (index - 1) hpt
              rw [hr] at hpr
              simp [naturalBoundaryAt, hpr, hr]
      · rw [if_neg hpt] at h
        exact ih (index - 1) (by omega) r h
    · rw [if_neg hs] at h
      exact absurd h (by simp)

theorem seekWhitespaceF_le (fuel : Nat) (text : List Char) (s : Nat) :
    ∀ index r, seekWhitespaceF fuel text s index = some r → r ≤ index := by
  induction fuel with
  | zero => intro index r h; exact absurd h (by simp [seekWhitespaceF])
  | succ fuel ih =>
    intro index r h
    simp only [seekWhitespaceF] at h
    by_cases hs : s < index
    · rw [if_pos hs] at h
      by_cases hws : testAt isJsWs text (index - 1) = true
      · rw [if_pos hws] at h
        injection h with h
        have hb := trimTrailingWhitespace_le text s (index - 1)
        omega
      · rw [if_neg hws] at h
        exact le_trans (ih (index - 1) r h) (by omega)
    · rw [if_neg hs] at h
      exact absurd h (by simp)

theorem seekWhitespaceF_gt (fuel : Nat) (text : List Char) (s : Nat) :
    ∀ index r, seekWhitespaceF fuel text s index = some r → s < r := by
  induction fuel with
  | zero => intro index r h; exact absurd h (by simp [seekWhitespaceF])
  | succ fuel ih =>
    intro index r h
    simp only [seekWhitespaceF] at h
    by_cases hs : s < index
    · rw [if_pos hs] at h
      by_cases hws : testAt isJsWs text (index - 1) = true
      · rw [if_pos hws] at h
        injection h with h
        have hb := trimTrailingWhitespace_ge text s (index - 1) (by omega)
        omega
      · rw [if_neg hws] at h
        exact ih (index - 1) r h
    · rw [if_neg hs] at h
      exact absurd h (by simp)

theorem seekWhitespaceF_natural (fuel : Nat) (text : List Char) (s : Nat) :
    ∀ index r, seekWhitespaceF fuel text s index = some r →
      naturalBoundaryAt text r = true := by
  induction fuel with
  | zero => intro index r h; exact absurd h (by simp [seekWhitespaceF])
  | succ fuel ih =>
    intro index r h
    simp only [seekWhitespaceF] at h
    by_cases hs : s < index
    · rw [if_pos hs] at h
      by_cases hws : testAt isJsWs text (index - 1) = true
      · rw [if_pos hws] at h
        injection h with h
        rcases trimTrailingWhitespace_ws text s (index - 1) hws with hw | hw
        · rw [← h]
          simp [naturalBoundaryAt, hw]
        · have he : index - 1 + 1 = index := by omega
          rw [he] at hw
          rw [← h, hw]
          simp [naturalBoundaryAt, hws]
      · rw [if_neg hws] at h
        exact ih (index - 1) r h
    · rw [if_neg hs] at h
      exact absurd h (by simp)

theorem seekWhitespaceF_none (fuel : Nat) (text : List Char) (s : Nat) :
    ∀ index, index - s < fuel → seekWhitespaceF fuel text s index = none →
      ∀ i, s ≤ i → i < index → testAt isJsWs text i = false := by
  induction fuel with
  | zero => omega
  | succ fuel ih =>
    intro index hfuel h i hsi hi
    simp only [seekWhitespaceF] at h
    by_cases hs : s < index
    · rw [if_pos hs] at h
      by_cases hws : testAt isJsWs text (index - 1) = true
      · rw [if_pos hws] at h
        exact absurd h (by simp)
      · rw [if_neg hws] at h
        rcases Nat.lt_or_ge i (index - 1) with hcase | hcase
        · exact ih (index - 1) (by omega) h i hsi hcase
        · have : i = index - 1 := by omega
          subst this
          simpa using hws
    · omega

theorem seekBoundary_le (text : List Char) (s e : Nat) (p : Char → Bool) (r : Nat)
    (h : seekBoundary text s e p = some r) : r ≤ e :=
  seekBoundaryF_le p (e + 1) text s e r h

theorem seekBoundary_gt (text : List Char) (s e : Nat) (p : Char → Bool) (r : Nat)
    (h : seekBoundary text s e p = some r) : s < r :=
  seekBoundaryF_gt p (e + 1) text s e r h

theorem seekBoundary_natural (text : List Char) (s e : Nat) (p : Char → Bool)
    (hp : ∀ c, p c = true → punctChar c = true) (he : e ≤ text.length) (r : Nat)
    (h : seekBoundary text s e p = some r) : naturalBoundaryAt text r = true :=
  seekBoundaryF_natural p hp (e + 1) text s e he r h

theorem seekWhitespace_le (text : List Char) (s e r : Nat)
    (h : seekWhitespace text s e = some r) : r ≤ e :=
  seekWhitespaceF_le (e + 1) text s e r h

theorem seekWhitespace_gt (text : List Char) (s e r : Nat)
    (h : seekWhitespace text s e = some r) : s < r :=
  seekWhitespaceF_gt (e + 1) text s e r h

theorem seekWhitespace_natural (text : List Char) (s e r : Nat)
    (h : seekWhitespace text s e = some r) : naturalBoundaryAt text r = true :=
  seekWhitespaceF_natural (e + 1) text s e r h

theorem seekWhitespace_none (text : List Char) (s e : Nat)
    (h : seekWhitespace text s e = none) :
    ∀ i, s ≤ i → i < e → testAt isJsWs text i = false :=
  seekWhitespaceF_none (e + 1) text s e (by omega) h

theorem findSplitPosition_le (text : List Char) (s L : Nat) :
    findSplitPosition text s L ≤ s + L ∧ findSplitPosition text s L ≤ text.length := by
  have hmin1 : min (s + L) text.length ≤ s + L := Nat.min_le_left _ _
  have hmin2 : min (s + L) text.length ≤ text.length := Nat.min_le_right _ _
  simp only [findSplitPosition]
  by_cases h : min (s + L) text.length = text.length
  · rw [if_pos h]
    constructor <;> omega
  · rw [if_neg h]
    cases h1 : seekBoundary text s (min (s + L) text.length) isNewlineChar with
    | some r =>
      simp only [h1]
      have hr := seekBoundary_le text s _ _ r h1
      constructor <;> omega
    | none =>
      simp only [h1]
      cases h2 : seekBoundary text s (min (s + L) text.length) isSentencePunct with
      | some r =>
        simp only [h2]
        have hr := seekBoundary_le text s _ _ r h2
        constructor <;> omega
      | none =>
        simp only [h2]
        cases h3 : seekBoundary text s (min (s + L) text.length) isClausePunct with
        | some r =>
          simp only [h3]
          have hr := seekBoundary_le text s _ _ r h3
          constructor <;> omega
        | none =>
          simp only [h3]
          cases h4 : seekBoundary text s (min (s + L) text.length) isCommaChar with
          | some r =>
            simp only [h4]
            have hr := seekBoundary_le text s _ _ r h4
            constructor <;> omega
          | none =>
            simp only [h4]
            cases h5 : seekWhitespace text s (min (s + L) text.length) with
            | some r =>
              simp only [h5]
              have hr := seekWhitespace_le text s _ r h5
              constructor <;> omega
            | none =>
              simp only [h5]
              constructor <;> omega

theorem findSplitPosition_advance (text : List Char) (s L : Nat) (hL : 1 ≤ L)
    (hs : s < text.length) : s < findSplitPosition text s L := by
  simp only [findSplitPosition]
  by_cases h : min (s + L) text.length = text.length
  · rw [if_pos h]; exact hs
  · rw [if_neg h]
    cases h1 : seekBoundary text s (min (s + L) text.length) isNewlineChar with
    | some r => simp only [h1]; exact seekBoundary_gt text s _ _ r h1
    | none =>
      simp only [h1]
      cases h2 : seekBoundary text s (min (s + L) text.length) isSentencePunct with
      | some r => simp only [h2]; exact seekBoundary_gt text s _ _ r h2
      | none =>
        simp only [h2]
        cases h3 : seekBoundary text s (min (s + L) text.length) isClausePunct with
        | some r => simp only [h3]; exact seekBoundary_gt text s _ _ r h3
        | none =>
          simp only [h3]
          cases h4 : seekBoundary text s (min (s + L) text.length) isCommaChar with
          | some r => simp only [h4]; exact seekBoundary_gt text s _ _ r h4
          | none =>
            simp only [h4]
            cases h5 : seekWhitespace text s (min (s + L) text.length) with
            | some r => simp only [h5]; exact seekWhitespace_gt text s _ r h5
            | none => simp only [h5]; omega

theorem newline_punct : ∀ c, isNewlineChar c = true → punctChar c = true := by
  intro c h; simp [punctChar, h]

theorem sentence_punct : ∀ c, isSentencePunct c = true → punctChar c = true := by
  intro c h; simp [punctChar, h]

theorem clause_punct : ∀ c, isClausePunct c = true → punctChar c = true := by
  intro c h; simp [punctChar, h]

theorem comma_punct : ∀ c, isCommaChar c = true → punctChar c = true := by
  intro c h; simp [punctChar, h]

/-- Where `findSplitPosition` can split: at the end of the text, at a natural
boundary, or — only when the whole window holds no whitespace at all — at the
hard cut exactly `maxLength` characters in. -/
theorem findSplitPosition_cases (text : List Char) (s L : Nat) :
    findSplitPosition text s L = text.length ∨
      naturalBoundaryAt text (findSplitPosition text s L) = true ∨
      (findSplitPosition text s L = s + L ∧
        ∀ i, s ≤ i → i < s + L → testAt isJsWs text i = false) := by
  have hmin2 : min (s + L) text.length ≤ text.length := Nat.min_le_right _ _
  simp only [findSplitPosition]
  by_cases h : min (s + L) text.length = text.length
  · rw [if_pos h]; left; rfl
  · rw [if_neg h]
    have hub : min (s + L) text.length = s + L := by omega
    cases h1 : seekBoundary text s (min (s + L) text.length) isNewlineChar with
    | some r =>
      simp only [h1]
      exact Or.inr (Or.inl (seekBoundary_natural text s _ _ newline_punct hmin2 r h1))
    | none =>
      simp only [h1]
      cases h2 : seekBoundary text s (min (s + L) text.length) isSentencePunct with
      | some r =>
        simp only [h2]
        exact Or.inr (Or.inl (seekBoundary_natural text s _ _ sentence_punct hmin2 r h2))
      | none =>
        simp only [h2]
        cases h3 : seekBoundary text s (min (s + L) text.length) isClausePunct with
        | some r =>
          simp only [h3]
          exact Or.inr (Or.inl (seekBoundary_natural text s _ _ clause_punct hmin2 r h3))
        | none =>
          simp only [h3]
          cases h4 : seekBoundary text s (min (s + L) text.length) isCommaChar with
          | some r =>
            simp only [h4]
            exact Or.inr (Or.inl (seekBoundary_natural text s _ _ comma_punct hmin2 r h4))
          | none =>
            simp only [h4]
            cases h5 : seekWhitespace text s (min (s + L) text.length) with
            | some r =>
              simp only [h5]
              exact Or.inr (Or.inl (seekWhitespace_natural text s _ r h5))
            | none =>
              simp only [h5]
              right; right
              refine ⟨hub, ?_⟩
              intro i hsi hi
              have hnone := seekWhitespace_none text s _ h5
              exact hnone i hsi (by omega)

/-! ## Chunk shape lemmas -/

theorem trimChars_length_le (l : List Char) : (trimChars l).length ≤ l.length := by
  unfold trimChars
  calc ((l.dropWhile isJsWs).reverse.dropWhile isJsWs).reverse.length
      = ((l.dropWhile isJsWs).reverse.dropWhile isJsWs).length :=
        List.length_reverse _
    _ ≤ (l.dropWhile isJsWs).reverse.length := (List.dropWhile_suffix _).length_le
    _ = (l.dropWhile isJsWs).length := List.length_reverse _
    _ ≤ l.length := (List.dropWhile_suffix _).length_le

theorem sliceChars_length_le (text : List Char) (a b : Nat) :
    (sliceChars text a b).length ≤ b - a := by
  unfold sliceChars
  calc ((text.drop a).take (b - a)).length
      = min (b - a) (text.drop a).length := List.length_take _ _
    _ ≤ b - a := Nat.min_le_left _ _

theorem head?_dropWhile_not (p : Char → Bool) (l : List Char) :
    ∀ c, (l.dropWhile p).head? = some c → p c = false := by
  induction l with
  | nil => intro c h; simp at h
  | cons a t ih =>
    intro c h
    rw [List.dropWhile_cons] at h
    by_cases hp : p a = true
    · rw [if_pos hp] at h
      exact ih c h
    · rw [if_neg hp] at h
      simp only [List.head?_cons, Option.some.injEq] at h
      subst h
      simpa using hp

theorem getLast?_dropWhile (p : Char → Bool) (l : List Char) :
    l.dropWhile p = [] ∨ (l.dropWhile p).getLast? = l.getLast? := by
  induction l with
  | nil => left; rfl
  | cons a t ih =>
    rw [List.dropWhile_cons]
    by_cases hp : p a = true
    · rw [if_pos hp]
      cases t with
      | nil => left; rfl
      | cons b t' =>
        rcases ih with h | h
        · left; exact h
        · right
          rw [h]
          exact List.getLast?_cons_cons.symm
    · rw [if_neg hp]; right; rfl

theorem trimChars_head?_not_ws (l : List Char) (c : Char)
    (h : (trimChars l).head? = some c) : isJsWs c = false := by
  unfold trimChars at h
  rw [List.head?_reverse] at h
  rcases getLast?_dropWhile isJsWs (l.dropWhile isJsWs).reverse with hnil | heq
  · rw [hnil] at h; simp at h
  · rw [heq, List.getLast?_reverse] at h
    exact head?_dropWhile_not isJsWs l c h

theorem trimChars_getLast?_not_ws (l : List Char) (c : Char)
    (h : (trimChars l).getLast? = some c) : isJsWs c = false := by
  unfold trimChars at h
  rw [List.getLast?_reverse] at h
  exact head?_dropWhile_not isJsWs _ c h

theorem splitLoopF_length_le (text : List Char) (L : Nat) :
    ∀ fuel start c, c ∈ splitLoopF text L fuel start → c.length ≤ L := by
  intro fuel
  induction fuel with
  | zero => intro start c h; simp [splitLoopF] at h
  | succ fuel ih =>
    intro start c h
    simp only [splitLoopF] at h
    by_cases hs : start < text.length
    · rw [if_pos hs] at h
      by_cases hc :
          (trimChars (sliceChars text start (findSplitPosition text start L))).length > 0
      · rw [if_pos hc] at h
        rcases List.mem_cons.mp h with rfl | hmem
        · have h1 :=
            trimChars_length_le (sliceChars text start (findSplitPosition text start L))
          have h2 := sliceChars_length_le text start (findSplitPosition text start L)
          have h3 := (findSplitPosition_le text start L).1
          omega
        · exact ih _ c hmem
      · rw [if_neg hc] at h
        exact ih _ c h
    · rw [if_neg hs] at h
      exact absurd h (by simp)

theorem splitLoopF_chunk_shape (text : List Char) (L : Nat) :
    ∀ fuel start c, c ∈ splitLoopF text L fuel start →
      c ≠ [] ∧ (∀ ch, c.head? = some ch → isJsWs ch = false) ∧
        (∀ ch, c.getLast? = some ch → isJsWs ch = false) := by
  intro fuel
  induction fuel with
  | zero => intro start c h; simp [splitLoopF] at h
  | succ fuel ih =>
    intro start c h
    simp only [splitLoopF] at h
    by_cases hs : start < text.length
    · rw [if_pos hs] at h
      by_cases hc :
          (trimChars (sliceChars text start (findSplitPosition text start L))).length > 0
      · rw [if_pos hc] at h
        rcases List.mem_cons.mp h with rfl | hmem
        · refine ⟨?_, ?_, ?_⟩
          · intro hnil
            rw [hnil] at hc
            simp at hc
          · intro ch hch
            exact trimChars_head?_not_ws _ ch hch
          · intro ch hch
            exact trimChars_getLast?_not_ws _ ch hch
        · exact ih _ c hmem
      · rw [if_neg hc] at h
        exact ih _ c h
    · rw [if_neg hs] at h
      exact absurd h (by simp)

theorem splitLoopF_stable (text : List Char) (L : Nat) (hL : 1 ≤ L) :
    ∀ f₁ f₂ start, text.length - start < f₁ → text.length - start < f₂ →
      splitLoopF text L f₁ start = splitLoopF text L f₂ start := by
  intro f₁
  induction f₁ with
  | zero => omega
  | succ f₁ ih =>
    intro f₂ start h₁ h₂
    match f₂, h₂ with
    | f₂ + 1, h₂ =>
      simp only [splitLoopF]
      by_cases hs : start < text.length
      · rw [if_pos hs, if_pos hs]
        have hadv := findSplitPosition_advance text start L hL hs
        have hskip := skipLeadingWhitespace_ge text (findSplitPosition text start L)
        rw [ih f₂ (skipLeadingWhitespace text (findSplitPosition text start L))
          (by omega) (by omega)]
      · rw [if_neg hs, if_neg hs]

theorem mem_dropWhile_of_not (p : Char → Bool) (l : List Char) (c : Char)
    (hc : c ∈ l) (hpc : p c = false) : c ∈ l.dropWhile p := by
  induction l with
  | nil => simp at hc
  | cons a t ih =>
    rw [List.dropWhile_cons]
    by_cases hp : p a = true
    · rw [if_pos hp]
      rcases List.mem_cons.mp hc with rfl | hmem
      · rw [hp] at hpc; cases hpc
      · exact ih hmem
    · rw [if_neg hp]
      exact hc

theorem trimChars_ne_nil (l : List Char) (c : Char) (hc : c ∈ l)
    (hw : isJsWs c = false) : trimChars l ≠ [] := by
  unfold trimChars
  intro h
  have h1 : (l.dropWhile isJsWs).reverse.dropWhile isJsWs = [] := by
    have h2 := congrArg List.reverse h
    simpa using h2
  rw [List.dropWhile_eq_nil_iff] at h1
  have hmem : c ∈ (l.dropWhile isJsWs).reverse := by
    rw [List.mem_reverse]
    exact mem_dropWhile_of_not isJsWs l c hc hw
  rw [h1 c hmem] at hw
  cases hw

theorem normalizeNewlines_cons_of_not_cr (c : Char) (t : List Char) (hc : c ≠ '\r') :
    normalizeNewlines (c :: t) = c :: normalizeNewlines t := by
  rw [normalizeNewlines.eq_def]
  simp [hc]

/-- A message whose first character is not whitespace splits into at least
one chunk whenever the maximum length is positive. -/
theorem splitMessage_ne_nil (x : List Char) (c : Char) (L : Nat) (hL : 1 ≤ L)
    (hhead : x.head? = some c) (hw : isJsWs c = false) :
    splitMessage x L ≠ [] := by
  cases x with
  | nil => simp at hhead
  | cons a t =>
    have ha : a = c := by simpa using hhead
    subst ha
    have hcr : a ≠ '\r' := by
      intro h; rw [h] at hw; simp [isJsWs] at hw
    have hnorm : normalizeNewlines (a :: t) = a :: normalizeNewlines t :=
      normalizeNewlines_cons_of_not_cr a t hcr
    simp only [splitMessage, hnorm]
    have hmem : a ∈ a :: normalizeNewlines t := List.mem_cons_self a _
    have hguard : (trimChars (a :: normalizeNewlines t)).length ≠ 0 := by
      intro h
      exact trimChars_ne_nil _ a hmem hw (List.length_eq_zero.mp h)
    rw [if_neg hguard]
    -- the scan starts at index 0, whose character is not whitespace
    have htest : testAt isJsWs (a :: normalizeNewlines t) 0 = false := by
      simpa [testAt] using hw
    have hskip : skipLeadingWhitespace (a :: normalizeNewlines t) 0 = 0 := by
      unfold skipLeadingWhitespace
      simp [skipLeadingWhitespaceF, htest]
    rw [hskip]
    have hlen : 0 < (a :: normalizeNewlines t).length := by simp
    have hadv := findSplitPosition_advance (a :: normalizeNewlines t) 0 L hL hlen
    -- the first chunk contains the head character, hence survives trimming
    simp only [splitLoopF, hlen, if_pos]
    have hslice : a ∈ sliceChars (a :: normalizeNewlines t) 0
        (findSplitPosition (a :: normalizeNewlines t) 0 L) := by
      unfold sliceChars
      simp only [List.drop_zero, Nat.sub_zero]
      cases hfs : findSplitPosition (a :: normalizeNewlines t) 0 L with
      | zero => omega
      | succ k => simp [List.take_cons]
    have hchunk := trimChars_ne_nil _ a hslice hw
    have hchunklen :
        (trimChars (sliceChars (a :: normalizeNewlines t) 0
          (findSplitPosition (a :: normalizeNewlines t) 0 L))).length > 0 := by
      cases hl : (trimChars (sliceChars (a :: normalizeNewlines t) 0
          (findSplitPosition (a :: normalizeNewlines t) 0 L))) with
      | nil => exact absurd hl hchunk
      | cons y ys => simp [hl]
    rw [if_pos hchunklen]
    simp

/-! ## Claim C5: chunk lengths are bounded by the maximum length -/

/-- C5: for every input string and every max length `L`, every chunk in the
list returned by `splitMessage input L` has length at most `L`. -/
theorem splitMessage_chunk_length_le (message : List Char) (maxLength : Nat) :
    ∀ chunk ∈ splitMessage message maxLength, chunk.length ≤ maxLength := by
  intro chunk h
  simp only [splitMessage] at h
  by_cases hz : (trimChars (normalizeNewlines message)).length = 0
  · rw [if_pos hz] at h
    exact absurd h (by simp)
  · rw [if_neg hz] at h
    exact splitLoopF_length_le _ _ _ _ chunk h

/-- Witness for C5 at the concrete input `"ab cd"` with max length 2. -/
theorem splitMessage_chunk_length_le_witness :
    "ab".toList ∈ splitMessage "ab cd".toList 2 ∧ ("ab".toList).length ≤ 2 :=
  ⟨by decide, splitMessage_chunk_length_le "ab cd".toList 2 "ab".toList (by decide)⟩

/-! ## Claim C6: where chunk boundaries may fall -/

/-- C6 (amended): every split position chosen by `findSplitPosition` is the
end of the text, or a natural boundary (whitespace at or just before the
position, or boundary punctuation just before the end of the text), or the
hard fallback cut exactly `maxLength` characters into a window that holds no
whitespace at all — in which case the cut can land inside a word or URL. -/
theorem findSplitPosition_boundary_kinds (text : List Char) (s L : Nat) :
    findSplitPosition text s L = text.length ∨
      naturalBoundaryAt text (findSplitPosition text s L) = true ∨
      (findSplitPosition text s L = s + L ∧
        ∀ i, s ≤ i → i < s + L → testAt isJsWs text i = false) :=
  findSplitPosition_cases text s L

/-- Witness for the amended C6 at a concrete input. -/
theorem findSplitPosition_boundary_kinds_witness :
    findSplitPosition "ab cd".toList 0 4 = ("ab cd".toList).length ∨
      naturalBoundaryAt "ab cd".toList (findSplitPosition "ab cd".toList 0 4) = true ∨
      (findSplitPosition "ab cd".toList 0 4 = 0 + 4 ∧
        ∀ i, 0 ≤ i → i < 0 + 4 → testAt isJsWs "ab cd".toList i = false) :=
  findSplitPosition_boundary_kinds "ab cd".toList 0 4

/-- C6 counterexample: the claim that no chunk boundary ever falls inside a
word or URL is false. `splitMessage "abcd" 2` splits the single word
`"abcd"` after its second character: the boundary at position 2 is not a
natural boundary, and the same hard cut lands inside the URL in
`"https://ex.co/abc"` with max length 8. -/
theorem splitMessage_splits_inside_word :
    splitMessage "abcd".toList 2 = ["ab".toList, "cd".toList] ∧
      findSplitPosition "abcd".toList 0 2 = 2 ∧
      naturalBoundaryAt "abcd".toList 2 = false ∧
      splitMessage "https://ex.co/abc".toList 8 =
        ["https://".toList, "ex.co/ab".toList, "c".toList] := by
  decide

/-! ## Claim C10: termination, non-emptiness and trimmedness of chunks -/

/-- The properties claim C10 asserts of the chunking loop: the scan index
strictly advances at every iteration, the loop result is independent of any
ample fuel (the loop terminates), and every chunk is non-empty with no
leading or trailing whitespace. -/
def ChunkingWellFormed (message : List Char) (maxLength : Nat) : Prop :=
  (∀ start, start < (normalizeNewlines message).length →
      start < skipLeadingWhitespace (normalizeNewlines message)
        (findSplitPosition (normalizeNewlines message) start maxLength)) ∧
  (∀ fuel, (normalizeNewlines message).length < fuel →
      splitLoopF (normalizeNewlines message) maxLength fuel
          (skipLeadingWhitespace (normalizeNewlines message) 0) =
        splitLoopF (normalizeNewlines message) maxLength
          ((normalizeNewlines message).length + 1)
          (skipLeadingWhitespace (normalizeNewlines message) 0)) ∧
  (∀ chunk ∈ splitMessage message maxLength,
      chunk ≠ [] ∧ (∀ c, chunk.head? = some c → isJsWs c = false) ∧
        (∀ c, chunk.getLast? = some c → isJsWs c = false))

/-- C10: for every input string and max length at least 1, `splitMessage`
terminates — each iteration strictly advances the scan index and the fueled
loop is fuel-independent — and every returned chunk is non-empty and carries
no leading or trailing whitespace. -/
theorem splitMessage_wellformed (message : List Char) (maxLength : Nat)
    (hL : 1 ≤ maxLength) : ChunkingWellFormed message maxLength := by
  refine ⟨?_, ?_, ?_⟩
  · intro start hs
    have h1 := findSplitPosition_advance (normalizeNewlines message) start maxLength hL hs
    have h2 := skipLeadingWhitespace_ge (normalizeNewlines message)
      (findSplitPosition (normalizeNewlines message) start maxLength)
    omega
  · intro fuel hf
    exact splitLoopF_stable _ _ hL fuel _ _ (by omega) (by omega)
  · intro chunk h
    simp only [splitMessage] at h
    by_cases hz : (trimChars (normalizeNewlines message)).length = 0
    · rw [if_pos hz] at h
      exact absurd h (by simp)
    · rw [if_neg hz] at h
      exact splitLoopF_chunk_shape _ _ _ _ chunk h

/-- Witness for C10 at the concrete input `"ab cd"` with max length 2. -/
theorem splitMessage_wellformed_witness :
    1 ≤ 2 ∧ ChunkingWellFormed "ab cd".toList 2 :=
  ⟨by decide, splitMessage_wellformed "ab cd".toList 2 (by decide)⟩

/-! ## Data model for the conversation pipeline

Messages as fetched from the remote message client
(`fetchLilNounsConversationMessages`). External collaborators — the message
client, the inference client (`env.AI.run`), the AutoRAG search, the
watermark store and the send operations — enter the embedding as oracle
fields of an environment record: the handler is a pure function of its
inputs and these oracle results. `stripMarkdown` of `utils/text.ts` (a chain
of regular-expression replacements that no claim under proof depends on) is
likewise carried as an oracle string transformation. -/

structure DirectCastMessage where
  messageId : String
  senderFid : Nat
  serverTimestamp : Option Int
  message : String
  mentions : Option (List Nat)
  inReplyToSenderFid : Option Nat
deriving DecidableEq

/-- `Number(m.serverTimestamp ?? 0n)`. -/
def tsVal (m : DirectCastMessage) : Int := m.serverTimestamp.getD 0

/-- A `RoleScopedChatInput` entry: role, content, and — on `tool`-role
entries — the tool name (field `name` in the source). -/
structure ChatMessage where
  role : String
  content : String
  toolName : Option String
deriving DecidableEq

/-- A tool call requested by the model: its name and the `proposalId`
argument when one was supplied in `arguments`. -/
structure AiToolCall where
  callName : String
  proposalId : Option Int
deriving DecidableEq

/-- Oracle results of the external data fetchers behind the tool dispatch
table (`lib/tools.ts`, plain request/response calls, external collaborators
per the spec): `Except.error` models a thrown exception, `Except.ok` the
JSON-serialized content string the handler pushes. For the proposal-summary
tool the oracle covers the fetch together with the follow-up summarization
call. -/
structure ToolsEnv where
  fetchActiveProposals : Except String String
  fetchCurrentAuction : Except String String
  fetchTokenTotalSupply : Except String String
  currentIsoDateTimeUtc : Except String String
  ethPrice : Except String String
  proposalSummary : Int → Except String String
  proposalsState : Int → Except String String

/-- One iteration of the tool-dispatch loop of `handleAiToolCalls`
(`lib/ai.ts`): the `switch` over the requested tool name inside a per-call
`try`/`catch`. A thrown handler (`Except.error`) is caught and logged and
contributes nothing; the two proposal tools skip the call when the
`proposalId` argument is missing or `0` (falsy); unrecognized names hit the
`default` branch and are logged and ignored. -/
def toolCallStep (tools : ToolsEnv) (tc : AiToolCall) : Option ChatMessage :=
  if tc.callName = "fetchLilNounsActiveProposals" then
    match tools.fetchActiveProposals with
    | Except.ok content => some ⟨"tool", content, some tc.callName⟩
    | Except.error _ => none
  else if tc.callName = "fetchLilNounsCurrentAuction" then
    match tools.fetchCurrentAuction with
    | Except.ok content => some ⟨"tool", content, some tc.callName⟩
    | Except.error _ => none
  else if tc.callName = "fetchLilNounsTokenTotalSupply" then
    match tools.fetchTokenTotalSupply with
    | Except.ok content => some ⟨"tool", content, some tc.callName⟩
    | Except.error _ => none
  else if tc.callName = "getCurrentIsoDateTimeUtc" then
    match tools.currentIsoDateTimeUtc with
    | Except.ok content => some ⟨"tool", content, some tc.callName⟩
    | Except.error _ => none
  else if tc.callName = "getEthPrice" then
    match tools.ethPrice with
    | Except.ok content => some ⟨"tool", content, some tc.callName⟩
    | Except.error _ => none
  else if tc.callName = "fetchLilNounsProposalSummary" then
    match tc.proposalId with
    | none => none
    | some pid =>
      if pid = 0 then none
      else
        match tools.proposalSummary pid with
        | Except.ok content => some ⟨"tool", content, some tc.callName⟩
        | Except.error _ => none
  else if tc.callName = "fetchLilNounsProposalsState" then
    match tc.proposalId with
    | none => none
    | some pid =>
      if pid = 0 then none
      else
        match tools.proposalsState pid with
        | Except.ok content => some ⟨"tool", content, some tc.callName⟩
        | Except.error _ => none
  else none

/-- The `for (const toolCall of tool_calls)` loop of `handleAiToolCalls`:
results are pushed into `toolsMessage` in call order; a skipped call pushes
nothing and the loop continues. -/
def handleAiToolCallsLoop (tools : ToolsEnv) : List AiToolCall → List ChatMessage
  | [] => []
  | tc :: rest =>
    match toolCallStep tools tc with
    | some m => m :: handleAiToolCallsLoop tools rest
    | none => handleAiToolCallsLoop tools rest

/-- `handleAiToolCalls` of `lib/ai.ts`. `toolAi` is the oracle for the first
`env.AI.run` call (system prompt plus the given messages, with the tool
catalog): `Except.error` means the call threw, in which case the outer
`catch` returns the empty list; `Except.ok none` means no `tool_calls` were
returned. -/
def handleAiToolCalls
    (toolAi : List ChatMessage → Except String (Option (List AiToolCall)))
    (tools : ToolsEnv) (systemMsg : String)
    (messages : List ChatMessage) : List ChatMessage :=
  match toolAi (⟨"system", systemMsg, none⟩ :: messages) with
  | Except.error _ => []
  | Except.ok none => []
  | Except.ok (some tcs) => handleAiToolCallsLoop tools tcs

/-- `generateContextText` of `lib/ai.ts`: an empty or whitespace-only query
bypasses the AutoRAG search; `autorag` is the oracle for the joined text
content of the search response. -/
def generateContextText (autorag : String → String) (query : String) : String :=
  if trimChars query.toList = [] then "" else autorag query

/-- remeda `takeLast n`: the last `n` elements (all of them when shorter). -/
def takeLast {α : Type} (n : Nat) (l : List α) : List α :=
  l.drop (l.length - n)

/-- The role remeda maps a message to in the one-to-one handler:
`assistant` for the agent, `user` otherwise. -/
def chatRole (agentFid : Nat) (m : DirectCastMessage) : String :=
  if m.senderFid = agentFid then "assistant" else "user"

/-- The literal fallback reply. -/
def idkText : String := "I don\x27t know"

/-- The send loop of the one-to-one handler:
`for (const [index, chunk] of messageChunks.entries())`, one
`sendDirectCast` per chunk, `break` on error. The result lists the chunks
whose send was attempted, in order; `errAt i` is the oracle for whether the
send of chunk `i` returns an error. -/
def sendLoop (errAt : Nat → Bool) : List (List Char) → Nat → List (List Char)
  | [], _ => []
  | c :: rest, i => if errAt i then [c] else c :: sendLoop errAt rest (i + 1)

/-! ## The one-to-one conversation handler -/

/-- Inputs and oracle results for one
`processOneToOneConversation(context, conversationId)` run:
the watermark (`getLastFetchTime`), the fetched messages and participants,
and the external calls the handler makes. -/
structure OneToOneEnv where
  agentFid : Nat
  lastFetchTime : Int
  messages : List DirectCastMessage
  participants : List Nat
  systemMsg : String
  autorag : String → String
  toolAi : List ChatMessage → Except String (Option (List AiToolCall))
  tools : ToolsEnv
  finalAi : List ChatMessage → Option String
  stripMd : String → String
  sendToOneToOne : Bool
  sendChunkError : Nat → Bool

/-- Observable outcome of a one-to-one run: which calls were made and what
was sent. -/
structure OneToOneRun where
  skippedSelf : Bool
  toolRoundInvoked : Bool
  finalAiInvoked : Bool
  finalMessages : List ChatMessage
  response : Option String
  chunks : List (List Char)
  recipientFid : Nat
  skippedNoChunks : Bool
  sentChunks : List (List Char)
deriving DecidableEq

/-- The watermark filter of the one-to-one handler: keep the messages whose
`serverTimestamp` is strictly greater than the last fetch time. -/
def oneToOneNewMessages (env : OneToOneEnv) : List DirectCastMessage :=
  env.messages.filter (fun m => tsVal m > env.lastFetchTime)

/-- The AutoRAG context of the one-to-one handler: new non-agent messages,
joined by newlines. -/
def oneToOneContextText (env : OneToOneEnv) : String :=
  generateContextText env.autorag
    (String.intercalate "\n"
      (((oneToOneNewMessages env).filter (fun m => m.senderFid ≠ env.agentFid)).map
        (fun m => m.message)))

/-- The tool round of the one-to-one handler, over the new messages with
remeda-assigned roles. -/
def oneToOneToolsMessage (env : OneToOneEnv) : List ChatMessage :=
  handleAiToolCalls env.toolAi env.tools env.systemMsg
    ((oneToOneNewMessages env).map
      (fun m => ⟨chatRole env.agentFid m, m.message, none⟩))

/-- The message list of the final `env.AI.run` call of the one-to-one
handler: system prompt (extended with the retrieved context when non-empty),
the last 10 messages, then the tool results. -/
def oneToOneFinalMessages (env : OneToOneEnv) : List ChatMessage :=
  ⟨"system",
    (if oneToOneContextText env = "" then env.systemMsg
      else env.systemMsg ++ "\nRELEVANT CONTEXT:\n" ++ oneToOneContextText env),
    none⟩ ::
    ((takeLast 10 env.messages).map
      (fun m => ⟨chatRole env.agentFid m, m.message, none⟩) ++
      oneToOneToolsMessage env)

/-- The `response` of the final `env.AI.run` call (`none` when the field is
absent). -/
def oneToOneResponse (env : OneToOneEnv) : Option String :=
  env.finalAi (oneToOneFinalMessages env)

/-- `plainResponse`/`fallbackResponse` of the one-to-one handler:
markdown-strip and trim the response (or the literal fallback when the
response is absent), replacing an empty result by the literal fallback. -/
def oneToOneFallback (env : OneToOneEnv) : List Char :=
  let plainResponse :=
    trimChars ((env.stripMd ((oneToOneResponse env).getD idkText)).toList)
  if plainResponse.length > 0 then plainResponse else idkText.toList

/-- `messageChunks` of the one-to-one handler. -/
def oneToOneChunks (env : OneToOneEnv) : List (List Char) :=
  splitMessage (oneToOneFallback env) 300

/-- The recipient: first participant other than the agent, `0` otherwise. -/
def oneToOneRecipient (env : OneToOneEnv) : Nat :=
  ((env.participants.filter (fun p => p ≠ env.agentFid)).head?).getD 0

/-- `processOneToOneConversation` of
`handlers/one-to-one-conversation-handler.ts`, lines 74-229: the self-message
guard, then context retrieval, tool round, final inference, fallback,
chunking, and the chunked send loop (behind its feature toggle). -/
def processOneToOneConversation (env : OneToOneEnv) : OneToOneRun :=
  if env.messages.getLast?.map (fun m => m.senderFid) = some env.agentFid then
    ⟨true, false, false, [], none, [], 0, false, []⟩
  else if (oneToOneChunks env).length = 0 then
    ⟨false, true, true, oneToOneFinalMessages env, oneToOneResponse env,
      oneToOneChunks env, oneToOneRecipient env, true, []⟩
  else
    ⟨false, true, true, oneToOneFinalMessages env, oneToOneResponse env,
      oneToOneChunks env, oneToOneRecipient env, false,
      if env.sendToOneToOne then sendLoop env.sendChunkError (oneToOneChunks env) 0
      else []⟩

/-! ## The group conversation handler -/

/-- `m.mentions?.some(mention => mention.user.fid === config.agent.fid) ?? false`. -/
def mentionsAgent (agentFid : Nat) (m : DirectCastMessage) : Bool :=
  match m.mentions with
  | some l => l.any (fun fid => fid = agentFid)
  | none => false

/-- `m.inReplyTo?.senderFid === config.agent.fid`. -/
def repliesToAgent (agentFid : Nat) (m : DirectCastMessage) : Bool :=
  m.inReplyToSenderFid = some agentFid

/-- The per-message mention-or-reply filter of the group handler. -/
def qualifiesForAgent (agentFid : Nat) (m : DirectCastMessage) : Bool :=
  mentionsAgent agentFid m || repliesToAgent agentFid m

/-- Inputs and oracle results for one
`processGroupConversation(context, conversationId)` run. -/
structure GroupEnv where
  agentFid : Nat
  lastFetchTime : Int
  messages : List DirectCastMessage
  systemMsg : String
  autorag : String → String
  toolAi : List ChatMessage → Except String (Option (List AiToolCall))
  tools : ToolsEnv
  finalAi : List ChatMessage → Option String
  stripMd : String → String
  sendToGroups : Bool
  sendGroupError : Nat → Bool

/-- Observable outcome of the group handler for one sender:
`sentMessage = some content` when a `sendDirectCastMessage` with that
content was issued. -/
structure SenderRun where
  senderFid : Nat
  skipped : Bool
  toolRoundInvoked : Bool
  finalAiInvoked : Bool
  finalMessages : List ChatMessage
  response : Option String
  sentMessage : Option String
  sendFailed : Bool
deriving DecidableEq

/-- `groupByProp('senderFid')` over the non-agent messages followed by
`entries(...)`: the result is a plain JavaScript object keyed by the
stringified fids, and integer-like keys enumerate in ascending numeric
order, each group keeping the encounter order of its messages. -/
def groupSenders (agentFid : Nat) (messages : List DirectCastMessage) :
    List (Nat × List DirectCastMessage) :=
  let nonAgent := messages.filter (fun m => m.senderFid ≠ agentFid)
  let fids :=
    List.insertionSort (fun a b => a ≤ b) ((nonAgent.map (fun m => m.senderFid)).dedup)
  fids.map (fun s => (s, nonAgent.filter (fun m => m.senderFid = s)))

/-- The per-sender selection of the group handler: messages newer than the
watermark, by the sender, that mention the agent or reply to the agent. -/
def senderNewQualifying (env : GroupEnv) (senderFid : Nat)
    (senderMessages : List DirectCastMessage) : List DirectCastMessage :=
  ((senderMessages.filter (fun m => tsVal m > env.lastFetchTime)).filter
    (fun m => m.senderFid = senderFid)).filter (qualifiesForAgent env.agentFid)

/-- The AutoRAG context of the group handler for one sender. -/
def senderContextText (env : GroupEnv) (senderFid : Nat)
    (senderMessages : List DirectCastMessage) : String :=
  generateContextText env.autorag
    (String.intercalate "\n"
      ((senderNewQualifying env senderFid senderMessages).map (fun m => m.message)))

/-- The tool round of the group handler for one sender. -/
def senderToolsMessage (env : GroupEnv) (senderFid : Nat)
    (senderMessages : List DirectCastMessage) : List ChatMessage :=
  handleAiToolCalls env.toolAi env.tools env.systemMsg
    ((senderNewQualifying env senderFid senderMessages).map
      (fun m => ⟨"user", m.message, none⟩))

/-- The message list of the final `env.AI.run` call of the group handler:
note the trailing window is filtered by sender and by mention-or-reply but
not by the watermark. -/
def senderFinalMessages (env : GroupEnv) (senderFid : Nat)
    (senderMessages : List DirectCastMessage) : List ChatMessage :=
  ⟨"system",
    (if senderContextText env senderFid senderMessages = "" then env.systemMsg
      else
        env.systemMsg ++ "\nHere is some context from relevant documents:\n" ++
          senderContextText env senderFid senderMessages),
    none⟩ ::
    ((takeLast 10
        ((senderMessages.filter (fun m => m.senderFid = senderFid)).filter
          (qualifiesForAgent env.agentFid))).map
      (fun m => ⟨"user", m.message, none⟩) ++
      senderToolsMessage env senderFid senderMessages)

/-- The `response` of the final `env.AI.run` call for one sender. -/
def senderResponse (env : GroupEnv) (senderFid : Nat)
    (senderMessages : List DirectCastMessage) : Option String :=
  env.finalAi (senderFinalMessages env senderFid senderMessages)

/-- Body of the `for (const [senderFid, senderMessages] of entries(...))`
loop of `processGroupConversation`
(`handlers/group-conversation-handler.ts`, lines 109-249): skip the sender
when none of their messages is newer than the watermark; otherwise run
context retrieval, the tool round and the final inference, strip markdown
from the response (or the literal fallback when the response is absent) and
send it (behind the feature toggle). -/
def processSender (env : GroupEnv) (senderFid : Nat)
    (senderMessages : List DirectCastMessage) : SenderRun :=
  if ¬ senderMessages.any (fun m => tsVal m > env.lastFetchTime) then
    ⟨senderFid, true, false, false, [], none, none, false⟩
  else if env.sendToGroups then
    ⟨senderFid, false, true, true, senderFinalMessages env senderFid senderMessages,
      senderResponse env senderFid senderMessages,
      some (env.stripMd ((senderResponse env senderFid senderMessages).getD idkText)),
      env.sendGroupError senderFid⟩
  else
    ⟨senderFid, false, true, true, senderFinalMessages env senderFid senderMessages,
      senderResponse env senderFid senderMessages, none, false⟩

/-- `processGroupConversation` of
`handlers/group-conversation-handler.ts`, lines 72-252. -/
def processGroupConversation (env : GroupEnv) : List SenderRun :=
  (groupSenders env.agentFid env.messages).map (fun g => processSender env g.1 g.2)

/-! ## The stream connection manager (`services/farcaster-stream.ts`) -/

/-- The message part of a `refresh-direct-cast-conversation` payload. -/
structure RefreshMessage where
  messageId : String
  serverTimestamp : Int
deriving DecidableEq

/-- A `refresh-direct-cast-conversation` payload. -/
structure RefreshPayload where
  conversationId : String
  message : Option RefreshMessage
deriving DecidableEq

/-- Configuration and oracle results `handleRefresh` consults:
`lookupIsGroup` models `fetchLilNounsUnreadConversation` (`none` when no
conversation is found, otherwise its `isGroup` flag) and the two feature
toggles route the event. -/
structure StreamEnv where
  lookupIsGroup : String → Option Bool
  handleGroupConversations : Bool
  handleOneToOneConversations : Bool

/-- A pipeline invocation issued by `handleRefresh`. -/
inductive StreamEffect where
  | pipelineGroup (conversationId : String)
  | pipelineOneToOne (conversationId : String)
deriving DecidableEq

/-- `this.ctx.storage.put(key, value)` on the durable object storage. -/
def storagePut (st : List (String × String)) (k v : String) :
    List (String × String) :=
  (k, v) :: st.filter (fun kv => kv.1 ≠ k)

/-- `handleRefresh` of `services/farcaster-stream.ts`, lines 302-385: guard
on the payload, fetch the conversation, route to the group or one-to-one
pipeline by `isGroup` and the feature toggles, then persist the last message
id and timestamp. The returned effect list holds the pipeline invocations
the handler awaits. -/
def handleRefresh (env : StreamEnv) (st : List (String × String))
    (p : RefreshPayload) : List (String × String) × List StreamEffect :=
  match p.message with
  | none => (st, [])
  | some message =>
    if message.messageId = "" then (st, [])
    else
      match env.lookupIsGroup p.conversationId with
      | none => (st, [])
      | some isGroup =>
        let effects :=
          if isGroup then
            if env.handleGroupConversations then
              [StreamEffect.pipelineGroup p.conversationId]
            else []
          else
            if env.handleOneToOneConversations then
              [StreamEffect.pipelineOneToOne p.conversationId]
            else []
        let st1 := storagePut st
          ("conversation:" ++ p.conversationId ++ ":lastMessageId")
          message.messageId
        let st2 := storagePut st1
          ("conversation:" ++ p.conversationId ++ ":timestamp")
          (toString message.serverTimestamp)
        (st2, effects)

/-- `this.initialBackoff` (1000 ms). -/
def initialBackoff : Nat := 1000

/-- `this.maxBackoff` (30000 ms). -/
def maxBackoff : Nat := 30000

/-- `scheduleReconnect()`: returns the delay after which `connect()` is
scheduled (the current backoff) together with the updated backoff
`Math.min(this.backoff * 2, this.maxBackoff)`. -/
def scheduleReconnect (backoff : Nat) : Nat × Nat :=
  (backoff, min (backoff * 2) maxBackoff)

/-- The `open` listener installed by `connect()`: after authenticating it
resets the backoff to `this.initialBackoff`. -/
def resetBackoffOnOpen (_backoff : Nat) : Nat := initialBackoff

/-! ## Helper lemmas on the pipeline -/

theorem sendLoop_mem (errAt : Nat → Bool) :
    ∀ chunks i c, c ∈ sendLoop errAt chunks i → c ∈ chunks := by
  intro chunks
  induction chunks with
  | nil => intro i c h; simp [sendLoop] at h
  | cons a rest ih =>
    intro i c h
    simp only [sendLoop] at h
    by_cases he : errAt i = true
    · rw [if_pos he] at h
      rcases List.mem_singleton.mp h with rfl
      exact List.mem_cons_self _ _
    · rw [if_neg he] at h
      rcases List.mem_cons.mp h with rfl | hmem
      · exact List.mem_cons_self _ _
      · exact List.mem_cons_of_mem _ (ih (i + 1) c hmem)

theorem sendLoop_singleton (errAt : Nat → Bool) (c : List Char) (i : Nat) :
    sendLoop errAt [c] i = [c] := by
  simp only [sendLoop]
  split <;> rfl

theorem sendLoop_take (errAt : Nat → Bool) :
    ∀ chunks i, sendLoop errAt chunks i =
      chunks.take (sendLoop errAt chunks i).length := by
  intro chunks
  induction chunks with
  | nil => intro i; rfl
  | cons a rest ih =>
    intro i
    simp only [sendLoop]
    by_cases he : errAt i = true
    · rw [if_pos he]; rfl
    · rw [if_neg he]
      simp only [List.length_cons, List.take_succ_cons]
      rw [← ih (i + 1)]

theorem sendLoop_no_error (errAt : Nat → Bool) :
    ∀ chunks i, (∀ j, j < chunks.length → errAt (i + j) = false) →
      sendLoop errAt chunks i = chunks := by
  intro chunks
  induction chunks with
  | nil => intro i _; rfl
  | cons a rest ih =>
    intro i h
    simp only [sendLoop]
    have h0 : errAt i = false := by simpa using h 0 (by simp)
    rw [if_neg (by simp [h0])]
    rw [ih (i + 1) (fun j hj => by
      have h2 := h (j + 1) (by simpa using Nat.succ_lt_succ hj)
      rw [show i + 1 + j = i + (j + 1) by omega]
      exact h2)]

theorem sendLoop_first_error (errAt : Nat → Bool) :
    ∀ chunks i k, k < chunks.length → errAt (i + k) = true →
      (∀ j, j < k → errAt (i + j) = false) →
      sendLoop errAt chunks i = chunks.take (k + 1) := by
  intro chunks
  induction chunks with
  | nil => intro i k hk; simp at hk
  | cons a rest ih =>
    intro i k hk herr hbelow
    simp only [sendLoop]
    cases k with
    | zero =>
      rw [if_pos (by simpa using herr)]
      rfl
    | succ k' =>
      have h0 : errAt i = false := by simpa using hbelow 0 (by omega)
      rw [if_neg (by simp [h0])]
      simp only [List.take_succ_cons]
      rw [ih (i + 1) k' (by simpa using hk)
        (by have := herr; rw [show i + (k' + 1) = i + 1 + k' by omega] at this; exact this)
        (fun j hj => by
          have := hbelow (j + 1) (by omega)
          rw [show i + (j + 1) = i + 1 + j by omega] at this
          exact this)]

theorem handleAiToolCallsLoop_append (tools : ToolsEnv) :
    ∀ l₁ l₂, handleAiToolCallsLoop tools (l₁ ++ l₂) =
      handleAiToolCallsLoop tools l₁ ++ handleAiToolCallsLoop tools l₂ := by
  intro l₁
  induction l₁ with
  | nil => intro l₂; rfl
  | cons tc rest ih =>
    intro l₂
    simp only [List.cons_append, handleAiToolCallsLoop]
    cases toolCallStep tools tc with
    | some m => simp [ih]
    | none => simp [ih]

theorem splitMessage_mem_ne_nil (msg : List Char) (L : Nat) (c : List Char)
    (h : c ∈ splitMessage msg L) : c ≠ [] := by
  simp only [splitMessage] at h
  by_cases hz : (trimChars (normalizeNewlines msg)).length = 0
  · rw [if_pos hz] at h
    exact absurd h (by simp)
  · rw [if_neg hz] at h
    exact (splitLoopF_chunk_shape _ _ _ _ c h).1

/-- The fallback reply is never empty after chunking: the plain response is
already trimmed and non-empty when used, otherwise the literal fallback is
chunked. -/
theorem oneToOneChunks_ne_nil (env : OneToOneEnv) : oneToOneChunks env ≠ [] := by
  unfold oneToOneChunks oneToOneFallback
  by_cases hp :
      (trimChars ((env.stripMd ((oneToOneResponse env).getD idkText)).toList)).length > 0
  · rw [if_pos hp]
    cases hc : trimChars ((env.stripMd ((oneToOneResponse env).getD idkText)).toList) with
    | nil => rw [hc] at hp; simp at hp
    | cons c t =>
      refine splitMessage_ne_nil (c :: t) c 300 (by omega) rfl ?_
      exact trimChars_head?_not_ws _ c (by rw [hc]; rfl)
  · rw [if_neg hp]
    exact splitMessage_ne_nil idkText.toList 'I' 300 (by omega) (by decide) (by decide)

/-- Which external fetch the tool dispatch consults for a requested call:
`none` when the call is skipped without running a handler (unknown name, or
missing/falsy `proposalId`). -/
def toolOracleResult (tools : ToolsEnv) (tc : AiToolCall) :
    Option (Except String String) :=
  if tc.callName = "fetchLilNounsActiveProposals" then some tools.fetchActiveProposals
  else if tc.callName = "fetchLilNounsCurrentAuction" then some tools.fetchCurrentAuction
  else if tc.callName = "fetchLilNounsTokenTotalSupply" then
    some tools.fetchTokenTotalSupply
  else if tc.callName = "getCurrentIsoDateTimeUtc" then some tools.currentIsoDateTimeUtc
  else if tc.callName = "getEthPrice" then some tools.ethPrice
  else if tc.callName = "fetchLilNounsProposalSummary" then
    match tc.proposalId with
    | none => none
    | some pid => if pid = 0 then none else some (tools.proposalSummary pid)
  else if tc.callName = "fetchLilNounsProposalsState" then
    match tc.proposalId with
    | none => none
    | some pid => if pid = 0 then none else some (tools.proposalsState pid)
  else none

/-- The tool names the dispatch table recognizes. -/
def knownToolNames : List String :=
  ["fetchLilNounsActiveProposals", "fetchLilNounsCurrentAuction",
    "fetchLilNounsTokenTotalSupply", "getCurrentIsoDateTimeUtc", "getEthPrice",
    "fetchLilNounsProposalSummary", "fetchLilNounsProposalsState"]

/-! ## Concrete environments for witnesses and counterexamples -/

/-- Tool oracles that all succeed, for concrete runs. -/
def toolsOkEnv : ToolsEnv :=
  ⟨Except.ok "p", Except.ok "a", Except.ok "t", Except.ok "d", Except.ok "e",
    fun _ => Except.ok "s", fun _ => Except.ok "q"⟩

/-- One-to-one run whose most recent message is the agent's own. -/
def agentLastOneEnv : OneToOneEnv :=
  ⟨20146, 200, [⟨"m1", 20146, some 300, "x", none, none⟩], [7], "sys",
    fun _ => "", fun _ => Except.ok none, toolsOkEnv, fun _ => some "ok",
    fun s => s, true, fun _ => false⟩

/-- One-to-one run with one new user message and a normal response. -/
def userOneEnv : OneToOneEnv :=
  ⟨20146, 200, [⟨"m1", 7, some 300, "hi", none, none⟩], [7], "sys",
    fun _ => "", fun _ => Except.ok none, toolsOkEnv, fun _ => some "ok",
    fun s => s, true, fun _ => false⟩

/-- One-to-one run whose final inference response is the empty string. -/
def emptyResponseOneEnv : OneToOneEnv :=
  ⟨20146, 200, [⟨"m1", 7, some 300, "hi", none, none⟩], [7], "sys",
    fun _ => "", fun _ => Except.ok none, toolsOkEnv, fun _ => some "",
    fun s => s, true, fun _ => false⟩

/-- One-to-one run over messages stamped 100, 200 and 300 with watermark
200. -/
def watermarkOneEnv : OneToOneEnv :=
  ⟨20146, 200,
    [⟨"a", 7, some 100, "m1", none, none⟩, ⟨"b", 7, some 200, "m2", none, none⟩,
      ⟨"c", 7, some 300, "m3", none, none⟩],
    [7], "sys", fun _ => "", fun _ => Except.ok none, toolsOkEnv,
    fun _ => some "ok", fun s => s, true, fun _ => false⟩

/-- Group run where a user message is followed by the agent's own reply as
the most recent message. -/
def agentLastGroupEnv : GroupEnv :=
  ⟨20146, 200,
    [⟨"m1", 7, some 300, "hi", none, none⟩,
      ⟨"m2", 20146, some 400, "echo", none, none⟩],
    "sys", fun _ => "", fun _ => Except.ok none, toolsOkEnv, fun _ => some "ok",
    fun s => s, true, fun _ => false⟩

/-- Group run whose final inference response is the empty string; the
markdown-strip oracle is the identity, which agrees with the source
`stripMarkdown` on the empty string. -/
def emptyResponseGroupEnv : GroupEnv :=
  ⟨20146, 200, [⟨"m1", 7, some 300, "hi", none, none⟩], "sys", fun _ => "",
    fun _ => Except.ok none, toolsOkEnv, fun _ => some "", fun s => s, true,
    fun _ => false⟩

/-- Group run with one new message that neither mentions the agent nor
replies to the agent. -/
def noMentionGroupEnv : GroupEnv :=
  ⟨20146, 200, [⟨"m1", 7, some 300, "plain message", none, none⟩], "sys",
    fun _ => "", fun _ => Except.ok none, toolsOkEnv, fun _ => some "ok",
    fun s => s, true, fun _ => false⟩

/-- Stream environment: one-to-one conversations enabled, every lookup finds
a one-to-one conversation. -/
def oneToOneStreamEnv : StreamEnv := ⟨fun _ => some false, true, true⟩

/-- A refresh event for conversation `conv1`. -/
def refreshEvent : RefreshPayload := ⟨"conv1", some ⟨"msg1", 300⟩⟩

/-! ## Claim C1: no per-conversation mutual exclusion in `handleRefresh` -/

/-- C1 (amended): `handleRefresh` consults no processing registry. The
pipeline invocations it emits depend only on the payload, the conversation
lookup and the feature toggles — not on the durable-object storage, the only
mutable state it touches — so a second overlapping or consecutive refresh
event for the same conversation triggers its own pipeline execution instead
of being dropped while the first is in flight. -/
theorem handleRefresh_no_mutual_exclusion (env : StreamEnv) (p : RefreshPayload) :
    (∀ st st', (handleRefresh env st p).2 = (handleRefresh env st' p).2) ∧
      (∀ st, (handleRefresh env (handleRefresh env st p).1 p).2 =
        (handleRefresh env st p).2) := by
  have key : ∀ st st', (handleRefresh env st p).2 = (handleRefresh env st' p).2 := by
    intro st st'
    cases hm : p.message with
    | none => simp [handleRefresh, hm]
    | some message =>
      simp only [handleRefresh, hm]
      by_cases hid : message.messageId = ""
      · rw [if_pos hid, if_pos hid]
      · rw [if_neg hid, if_neg hid]
        cases env.lookupIsGroup p.conversationId <;> rfl
  exact ⟨key, fun st => key _ st⟩

/-- Witness for the amended C1 at a concrete event. -/
theorem handleRefresh_no_mutual_exclusion_witness :
    (∀ st st', (handleRefresh oneToOneStreamEnv st refreshEvent).2 =
      (handleRefresh oneToOneStreamEnv st' refreshEvent).2) ∧
      (∀ st, (handleRefresh oneToOneStreamEnv
          (handleRefresh oneToOneStreamEnv st refreshEvent).1 refreshEvent).2 =
        (handleRefresh oneToOneStreamEnv st refreshEvent).2) :=
  handleRefresh_no_mutual_exclusion oneToOneStreamEnv refreshEvent

/-- C1 counterexample: two refresh events for the same conversation — the
second arriving while (or after) the first is processed — produce two
pipeline executions, not exactly one: nothing looks up an in-flight entry
and drops the duplicate. -/
theorem handleRefresh_overlapping_events_run_twice :
    (handleRefresh oneToOneStreamEnv [] refreshEvent).2 ++
        (handleRefresh oneToOneStreamEnv
          (handleRefresh oneToOneStreamEnv [] refreshEvent).1 refreshEvent).2 =
      [StreamEffect.pipelineOneToOne "conv1", StreamEffect.pipelineOneToOne "conv1"] ∧
      ((handleRefresh oneToOneStreamEnv [] refreshEvent).2 ++
        (handleRefresh oneToOneStreamEnv
          (handleRefresh oneToOneStreamEnv [] refreshEvent).1 refreshEvent).2).length ≠
        1 := by
  decide

/-! ## Claim C9: reconnect backoff -/

/-- C9: `scheduleReconnect` schedules `connect` after exactly the current
backoff, then doubles the backoff capped at the 30000 ms ceiling — so over
consecutive failures the scheduled delays are non-decreasing and never
exceed the ceiling — and the `open` handler resets the backoff exactly to
the 1000 ms floor. -/
theorem backoff_monotone_capped_reset (b : Nat) (h : b ≤ maxBackoff) :
    (scheduleReconnect b).1 = b ∧
      (scheduleReconnect b).1 ≤ (scheduleReconnect (scheduleReconnect b).2).1 ∧
      (scheduleReconnect b).1 ≤ maxBackoff ∧
      (scheduleReconnect b).2 ≤ maxBackoff ∧
      (∀ b', resetBackoffOnOpen b' = initialBackoff) ∧
      initialBackoff ≤ maxBackoff := by
  unfold scheduleReconnect resetBackoffOnOpen initialBackoff maxBackoff at *
  refine ⟨rfl, ?_, h, ?_, fun _ => rfl, by omega⟩
  · show b ≤ min (b * 2) 30000
    omega
  · show min (b * 2) 30000 ≤ 30000
    omega

/-- Witness for C9 at the backoff floor. -/
theorem backoff_monotone_capped_reset_witness :
    initialBackoff ≤ maxBackoff ∧
      ((scheduleReconnect initialBackoff).1 = initialBackoff ∧
        (scheduleReconnect initialBackoff).1 ≤
          (scheduleReconnect (scheduleReconnect initialBackoff).2).1 ∧
        (scheduleReconnect initialBackoff).1 ≤ maxBackoff ∧
        (scheduleReconnect initialBackoff).2 ≤ maxBackoff ∧
        (∀ b', resetBackoffOnOpen b' = initialBackoff) ∧
        initialBackoff ≤ maxBackoff) :=
  ⟨by decide, backoff_monotone_capped_reset initialBackoff (by decide)⟩

/-! ## Claim C2: the self-message guard -/

/-- C2 (amended): the ONE-TO-ONE variant returns before the tool round, the
final inference call and the send loop whenever the most recent message was
sent by the agent; the GROUP variant has no such early return — it instead
excludes the agent's own messages when grouping by sender, so the agent is
never processed as a sender. -/
theorem oneToOne_self_message_guard :
    (∀ env : OneToOneEnv,
        env.messages.getLast?.map (fun m => m.senderFid) = some env.agentFid →
          processOneToOneConversation env =
            ⟨true, false, false, [], none, [], 0, false, []⟩) ∧
      (∀ (agentFid : Nat) (messages : List DirectCastMessage),
        ∀ g ∈ groupSenders agentFid messages, g.1 ≠ agentFid) := by
  constructor
  · intro env h
    unfold processOneToOneConversation
    rw [if_pos h]
  · intro agentFid messages g hg
    simp only [groupSenders] at hg
    rcases List.mem_map.mp hg with ⟨s, hs, rfl⟩
    have hs' : s ∈ (((messages.filter (fun m => m.senderFid ≠ agentFid)).map
        (fun m => m.senderFid)).dedup) :=
      ((List.perm_insertionSort _ _).mem_iff).mp hs
    rw [List.mem_dedup] at hs'
    rcases List.mem_map.mp hs' with ⟨m, hm, rfl⟩
    have := (List.mem_filter.mp hm).2
    simpa using this

/-- Witness for the amended C2: a one-to-one conversation whose last message
is the agent's is skipped entirely. -/
theorem oneToOne_self_message_guard_witness :
    agentLastOneEnv.messages.getLast?.map (fun m => m.senderFid) =
        some agentLastOneEnv.agentFid ∧
      processOneToOneConversation agentLastOneEnv =
        ⟨true, false, false, [], none, [], 0, false, []⟩ :=
  ⟨by decide, oneToOne_self_message_guard.1 agentLastOneEnv (by decide)⟩

/-- C2 counterexample: in the GROUP variant the pipeline does not return
early when the most recent message is the agent's own — with a user message
followed by the agent's reply as the latest message, the user sender is
still processed: the inference client is invoked and a reply is sent. -/
theorem groupHandler_replies_after_own_last_message :
    agentLastGroupEnv.messages.getLast?.map (fun m => m.senderFid) =
        some agentLastGroupEnv.agentFid ∧
      (processGroupConversation agentLastGroupEnv).map
          (fun r => (r.senderFid, r.skipped, r.finalAiInvoked)) = [(7, false, true)] ∧
      (processGroupConversation agentLastGroupEnv).map (fun r => r.sentMessage) =
        [some "ok"] := by
  decide

/-! ## Claim C3: the fallback reply on an absent or empty response -/

set_option maxHeartbeats 1600000 in
/-- C3 (amended): in the ONE-TO-ONE variant an absent or empty inference
response yields exactly the literal fallback reply, and no sent chunk is
ever empty; the GROUP variant applies the fallback only to an absent
response (an empty-string response is sent as is — see the
counterexample). -/
theorem oneToOne_fallback_on_empty_response :
    (∀ env : OneToOneEnv,
        env.stripMd "" = "" →
        env.stripMd idkText = idkText →
        (processOneToOneConversation env).skippedSelf = false →
        ((processOneToOneConversation env).response = none ∨
          (processOneToOneConversation env).response = some "") →
        (processOneToOneConversation env).chunks = [idkText.toList] ∧
          (processOneToOneConversation env).sentChunks =
            (if env.sendToOneToOne then [idkText.toList] else [])) ∧
      (∀ env : OneToOneEnv,
        ∀ c ∈ (processOneToOneConversation env).sentChunks, c ≠ []) := by
  constructor
  · intro env h0 h1 hskip hresp
    by_cases hg : env.messages.getLast?.map (fun m => m.senderFid) = some env.agentFid
    · exfalso
      unfold processOneToOneConversation at hskip
      rw [if_pos hg] at hskip
      exact absurd hskip (by simp)
    · have hre : (processOneToOneConversation env).response = oneToOneResponse env := by
        unfold processOneToOneConversation
        rw [if_neg hg]
        split <;> rfl
      rw [hre] at hresp
      have hfall : oneToOneFallback env = idkText.toList := by
        unfold oneToOneFallback
        rcases hresp with hnone | hempty
        · rw [hnone]
          simp only [Option.getD, h1]
          rw [show trimChars idkText.toList = idkText.toList from by decide]
          rw [if_pos (by decide)]
        · rw [hempty]
          simp only [Option.getD, h0]
          rw [show trimChars ("".toList) = [] from rfl]
          rw [if_neg (by simp)]
      have hchunks : oneToOneChunks env = [idkText.toList] := by
        unfold oneToOneChunks
        rw [hfall]
        decide
      have hne : ¬ (oneToOneChunks env).length = 0 := by
        rw [hchunks]; simp
      unfold processOneToOneConversation
      rw [if_neg hg, if_neg hne]
      refine ⟨hchunks, ?_⟩
      by_cases hs : env.sendToOneToOne = true
      · rw [if_pos hs, if_pos hs, hchunks, sendLoop_singleton]
      · rw [if_neg hs, if_neg hs]
  · intro env c hc
    by_cases hg : env.messages.getLast?.map (fun m => m.senderFid) = some env.agentFid
    · unfold processOneToOneConversation at hc
      rw [if_pos hg] at hc
      exact absurd hc (by simp)
    · unfold processOneToOneConversation at hc
      rw [if_neg hg] at hc
      by_cases hz : (oneToOneChunks env).length = 0
      · rw [if_pos hz] at hc
        exact absurd hc (by simp)
      · rw [if_neg hz] at hc
        simp only at hc
        by_cases hs : env.sendToOneToOne = true
        · rw [if_pos hs] at hc
          have hmem := sendLoop_mem env.sendChunkError (oneToOneChunks env) 0 c hc
          exact splitMessage_mem_ne_nil (oneToOneFallback env) 300 c hmem
        · rw [if_neg hs] at hc
          exact absurd hc (by simp)

/-- Witness for the amended C3: with an empty-string response the one-to-one
handler sends exactly the literal fallback. -/
theorem oneToOne_fallback_on_empty_response_witness :
    (processOneToOneConversation emptyResponseOneEnv).chunks = [idkText.toList] ∧
      (processOneToOneConversation emptyResponseOneEnv).sentChunks =
        (if emptyResponseOneEnv.sendToOneToOne then [idkText.toList] else []) :=
  oneToOne_fallback_on_empty_response.1 emptyResponseOneEnv rfl rfl (by decide)
    (Or.inr (by decide))

/-- C3 counterexample: in the GROUP variant an empty-string inference
response is sent as an empty message — the empty-string check exists only in
the one-to-one handler. The markdown-strip oracle is the identity here,
which agrees with the source `stripMarkdown` on the empty string. -/
theorem groupHandler_sends_empty_reply :
    (processGroupConversation emptyResponseGroupEnv).map
        (fun r => (r.response, r.sentMessage)) = [(some "", some "")] := by
  decide

/-! ## Claim C4: watermark selection and group sender gating -/

/-- C4 (amended): a message is selected as new work exactly when its
`serverTimestamp` is strictly greater than the watermark (on timestamps
100/200/300 with watermark 200 only the 300 message is selected); in a group
conversation a sender is processed exactly when they have at least one such
new message — the mention-or-reply restriction applies to the messages used
for context, the tool round and the final prompt, not to whether the sender
is processed. -/
theorem watermark_filter_and_sender_gating :
    (∀ (env : OneToOneEnv) (m : DirectCastMessage),
        m ∈ oneToOneNewMessages env ↔
          m ∈ env.messages ∧ tsVal m > env.lastFetchTime) ∧
      (oneToOneNewMessages watermarkOneEnv).map (fun m => tsVal m) = [300] ∧
      (∀ (env : GroupEnv) (s : Nat) (msgs : List DirectCastMessage),
        (processSender env s msgs).skipped = false ↔
          ∃ m ∈ msgs, tsVal m > env.lastFetchTime) := by
  refine ⟨?_, by decide, ?_⟩
  · intro env m
    unfold oneToOneNewMessages
    rw [List.mem_filter]
    simp
  · intro env s msgs
    unfold processSender
    by_cases hany : msgs.any (fun m => tsVal m > env.lastFetchTime) = true
    · rw [if_neg (by simpa using hany)]
      constructor
      · intro _
        simpa using hany
      · intro _
        split <;> rfl
    · rw [if_pos (by simpa using hany)]
      constructor
      · intro h; exact absurd h (by simp)
      · intro h
        exact absurd (by simpa using h) hany

/-- Witness for the amended C4: the concrete watermark example. -/
theorem watermark_filter_and_sender_gating_witness :
    (oneToOneNewMessages watermarkOneEnv).map (fun m => tsVal m) = [300] :=
  watermark_filter_and_sender_gating.2.1

/-- C4 counterexample: a group sender whose only new message neither
mentions the agent nor replies to the agent is still processed — the
inference client runs and a reply is sent; the mention-or-reply filter does
not gate sender processing. -/
theorem group_sender_processed_without_mention :
    (∀ m ∈ noMentionGroupEnv.messages,
        qualifiesForAgent noMentionGroupEnv.agentFid m = false) ∧
      (processGroupConversation noMentionGroupEnv).map
          (fun r => (r.senderFid, r.skipped, r.finalAiInvoked, r.sentMessage)) =
        [(7, false, true, some "ok")] := by
  decide

/-! ## Claim C7: in-order sends with hard stop on failure -/

/-- C7: chunks are sent in list order — the attempted sends always form an
initial segment of the chunk list; with no failing send every chunk is sent;
the first failing send is the last attempted and no later chunk is sent; and
at the pipeline level the sent chunks are an initial segment of the computed
chunks. The loop always returns normally: a failure is logged, not thrown. -/
theorem sendLoop_in_order_hard_stop :
    (∀ (errAt : Nat → Bool) (chunks : List (List Char)),
        sendLoop errAt chunks 0 = chunks.take (sendLoop errAt chunks 0).length) ∧
      (∀ (errAt : Nat → Bool) (chunks : List (List Char)),
        (∀ j, j < chunks.length → errAt j = false) →
          sendLoop errAt chunks 0 = chunks) ∧
      (∀ (errAt : Nat → Bool) (chunks : List (List Char)) (k : Nat),
        k < chunks.length → errAt k = true → (∀ j, j < k → errAt j = false) →
          sendLoop errAt chunks 0 = chunks.take (k + 1)) ∧
      (∀ env : OneToOneEnv,
        (processOneToOneConversation env).sentChunks =
          (processOneToOneConversation env).chunks.take
            (processOneToOneConversation env).sentChunks.length) := by
  refine ⟨?_, ?_, ?_, ?_⟩
  · intro errAt chunks
    exact sendLoop_take errAt chunks 0
  · intro errAt chunks h
    exact sendLoop_no_error errAt chunks 0 (fun j hj => by simpa using h j hj)
  · intro errAt chunks k hk herr hbelow
    exact sendLoop_first_error errAt chunks 0 k hk (by simpa using herr)
      (fun j hj => by simpa using hbelow j hj)
  · intro env
    unfold processOneToOneConversation
    split
    · rfl
    · split
      · rfl
      · simp only
        split
        · exact sendLoop_take _ _ 0
        · rfl

/-- Witness for C7: a failing send at index 1 stops the loop after two
attempted chunks. -/
theorem sendLoop_in_order_hard_stop_witness :
    sendLoop (fun i => i == 1) [['a'], ['b'], ['c']] 0 =
      [['a'], ['b'], ['c']].take 2 :=
  sendLoop_in_order_hard_stop.2.2.1 (fun i => i == 1) [['a'], ['b'], ['c']] 1
    (by decide) (by decide) (by decide)

/-! ## Claim C8: tool failure isolation -/

set_option maxHeartbeats 1600000 in
/-- C8: a requested tool call whose dispatch produces nothing — a handler
that throws, an unrecognized name, or a missing argument — is simply
omitted: the remaining results are kept in order and the loop never aborts;
a thrown handler (an `Except.error` from the external fetch the dispatch
consults) always produces nothing; unrecognized names always produce
nothing; and the pipeline still performs the final inference call and still
produces a non-empty reply to send. -/
theorem toolFailure_isolated :
    (∀ tools pre post tc, toolCallStep tools tc = none →
        handleAiToolCallsLoop tools (pre ++ tc :: post) =
          handleAiToolCallsLoop tools (pre ++ post)) ∧
      (∀ tools tc e, toolOracleResult tools tc = some (Except.error e) →
        toolCallStep tools tc = none) ∧
      (∀ tools tc, tc.callName ∉ knownToolNames → toolCallStep tools tc = none) ∧
      (∀ env : OneToOneEnv,
        (processOneToOneConversation env).skippedSelf = false →
          (processOneToOneConversation env).finalAiInvoked = true ∧
            (processOneToOneConversation env).chunks ≠ []) := by
  refine ⟨?_, ?_, ?_, ?_⟩
  · intro tools pre post tc hnone
    rw [handleAiToolCallsLoop_append, handleAiToolCallsLoop_append]
    simp only [handleAiToolCallsLoop, hnone]
  · intro tools tc e h
    unfold toolOracleResult at h
    unfold toolCallStep
    split_ifs at h ⊢ with h1 h2 h3 h4 h5 h6 h7
    · rw [Option.some.injEq] at h; rw [h]
    · rw [Option.some.injEq] at h; rw [h]
    · rw [Option.some.injEq] at h; rw [h]
    · rw [Option.some.injEq] at h; rw [h]
    · rw [Option.some.injEq] at h; rw [h]
    · cases hp : tc.proposalId with
      | none => rfl
      | some pid =>
        rw [hp] at h
        dsimp only at h ⊢
        by_cases hz : pid = 0
        · rw [if_pos hz]
        · rw [if_neg hz]
          rw [if_neg hz, Option.some.injEq] at h
          rw [h]
    · cases hp : tc.proposalId with
      | none => rfl
      | some pid =>
        rw [hp] at h
        dsimp only at h ⊢
        by_cases hz : pid = 0
        · rw [if_pos hz]
        · rw [if_neg hz]
          rw [if_neg hz, Option.some.injEq] at h
          rw [h]
  · intro tools tc hname
    have h1 : ¬ tc.callName = "fetchLilNounsActiveProposals" := by
      intro h; exact hname (by rw [h]; simp [knownToolNames])
    have h2 : ¬ tc.callName = "fetchLilNounsCurrentAuction" := by
      intro h; exact hname (by rw [h]; simp [knownToolNames])
    have h3 : ¬ tc.callName = "fetchLilNounsTokenTotalSupply" := by
      intro h; exact hname (by rw [h]; simp [knownToolNames])
    have h4 : ¬ tc.callName = "getCurrentIsoDateTimeUtc" := by
      intro h; exact hname (by rw [h]; simp [knownToolNames])
    have h5 : ¬ tc.callName = "getEthPrice" := by
      intro h; exact hname (by rw [h]; simp [knownToolNames])
    have h6 : ¬ tc.callName = "fetchLilNounsProposalSummary" := by
      intro h; exact hname (by rw [h]; simp [knownToolNames])
    have h7 : ¬ tc.callName = "fetchLilNounsProposalsState" := by
      intro h; exact hname (by rw [h]; simp [knownToolNames])
    unfold toolCallStep
    rw [if_neg h1, if_neg h2, if_neg h3, if_neg h4, if_neg h5, if_neg h6, if_neg h7]
  · intro env hskip
    by_cases hg : env.messages.getLast?.map (fun m => m.senderFid) = some env.agentFid
    · exfalso
      unfold processOneToOneConversation at hskip
      rw [if_pos hg] at hskip
      exact absurd hskip (by simp)
    · unfold processOneToOneConversation
      rw [if_neg hg]
      split
      · exact ⟨rfl, oneToOneChunks_ne_nil env⟩
      · exact ⟨rfl, oneToOneChunks_ne_nil env⟩

/-- Witness for C8: a failing `getEthPrice` handler is omitted while the
surrounding results are kept, and a normal one-to-one run still reaches the
final inference call with a non-empty reply. -/
theorem toolFailure_isolated_witness :
    handleAiToolCallsLoop
        ⟨Except.ok "p", Except.ok "a", Except.ok "t", Except.ok "d",
          Except.error "boom", fun _ => Except.ok "s", fun _ => Except.ok "q"⟩
        [⟨"fetchLilNounsActiveProposals", none⟩, ⟨"getEthPrice", none⟩,
          ⟨"getCurrentIsoDateTimeUtc", none⟩] =
      handleAiToolCallsLoop
        ⟨Except.ok "p", Except.ok "a", Except.ok "t", Except.ok "d",
          Except.error "boom", fun _ => Except.ok "s", fun _ => Except.ok "q"⟩
        [⟨"fetchLilNounsActiveProposals", none⟩, ⟨"getCurrentIsoDateTimeUtc", none⟩] ∧
      (processOneToOneConversation userOneEnv).finalAiInvoked = true ∧
        (processOneToOneConversation userOneEnv).chunks ≠ [] :=
  ⟨toolFailure_isolated.1 _ [⟨"fetchLilNounsActiveProposals", none⟩]
      [⟨"getCurrentIsoDateTimeUtc", none⟩] ⟨"getEthPrice", none⟩ (by decide),
    toolFailure_isolated.2.2.2 userOneEnv (by decide)⟩

end LilnounsAgent
